import Mathlib

/-!
Verification of the procedural mesh generator (`nvh::geometry`) of this
repository: the `Mesh` container with `append` and `flipWinding`, and the
generators `Plane::add`, `Box::add`, `Sphere::add`, `Torus::add` and
`RandomMengerSponge::add`.

Floating-point scalars are embedded symbolically: an `FExp` is the expression
tree a generator builds for one float value (literals, casts of ints, π,
arithmetic, sin/cos).  Every claim under consideration concerns vertex/index
counts, index ranges, or the identity of the computations performed, never
the rounded numeric value of a float, so the expression tree is a faithful
carrier of exactly the information the claims are about.  Machine integers in
index computations are embedded as `ℕ`; the index arithmetic of the source
never relies on wrap-around.
-/

/-- Symbolic float expression: the computation tree of one scalar value. -/
inductive FExp : Type
  | lit : ℚ → FExp
  | pi : FExp
  | ofInt : ℤ → FExp
  | neg : FExp → FExp
  | add : FExp → FExp → FExp
  | sub : FExp → FExp → FExp
  | mul : FExp → FExp → FExp
  | div : FExp → FExp → FExp
  | sin : FExp → FExp
  | cos : FExp → FExp
  deriving DecidableEq, Repr

/-- glm::vec2 of symbolic scalars. -/
structure Vec2 where
  x : FExp
  y : FExp
  deriving DecidableEq, Repr

/-- glm::vec3 of symbolic scalars. -/
structure Vec3 where
  x : FExp
  y : FExp
  z : FExp
  deriving DecidableEq, Repr

/-- glm::vec4 of symbolic scalars. -/
structure Vec4 where
  x : FExp
  y : FExp
  z : FExp
  w : FExp
  deriving DecidableEq, Repr

/-- glm::mat4, column major as in glm: four columns. -/
structure Mat4 where
  c0 : Vec4
  c1 : Vec4
  c2 : Vec4
  c3 : Vec4
  deriving DecidableEq, Repr

/-- glm matrix*vector product: `m * v = m[0]*v.x + m[1]*v.y + m[2]*v.z + m[3]*v.w`. -/
def Mat4.mulVec (m : Mat4) (v : Vec4) : Vec4 :=
  { x := .add (.add (.mul m.c0.x v.x) (.mul m.c1.x v.y)) (.add (.mul m.c2.x v.z) (.mul m.c3.x v.w))
    y := .add (.add (.mul m.c0.y v.x) (.mul m.c1.y v.y)) (.add (.mul m.c2.y v.z) (.mul m.c3.y v.w))
    z := .add (.add (.mul m.c0.z v.x) (.mul m.c1.z v.y)) (.add (.mul m.c2.z v.z) (.mul m.c3.z v.w))
    w := .add (.add (.mul m.c0.w v.x) (.mul m.c1.w v.y)) (.add (.mul m.c2.w v.z) (.mul m.c3.w v.w)) }

/-- glm matrix*matrix product, columnwise. -/
def Mat4.mul (a b : Mat4) : Mat4 :=
  { c0 := a.mulVec b.c0, c1 := a.mulVec b.c1, c2 := a.mulVec b.c2, c3 := a.mulVec b.c3 }

/-- Modelled from glm (external library): `glm::translate(glm::mat4(1), v)`,
the identity matrix with translation column `(v, 1)`. -/
def glmTranslate (v : Vec3) : Mat4 :=
  { c0 := ⟨.lit 1, .lit 0, .lit 0, .lit 0⟩
    c1 := ⟨.lit 0, .lit 1, .lit 0, .lit 0⟩
    c2 := ⟨.lit 0, .lit 0, .lit 1, .lit 0⟩
    c3 := ⟨v.x, v.y, v.z, .lit 1⟩ }

/-- Modelled from glm (external library): `glm::scale(glm::mat4(1), vec3(s))`,
the uniform scale matrix `diag(s, s, s, 1)`. -/
def glmScale (s : FExp) : Mat4 :=
  { c0 := ⟨s, .lit 0, .lit 0, .lit 0⟩
    c1 := ⟨.lit 0, s, .lit 0, .lit 0⟩
    c2 := ⟨.lit 0, .lit 0, s, .lit 0⟩
    c3 := ⟨.lit 0, .lit 0, .lit 0, .lit 1⟩ }

/-- Modelled from glm (external library): `glm::rotate(glm::mat4(1), angle, axis)`
with the axis already a unit vector, as at every call site in the source
(glm normalizes the axis; normalizing a unit axis is the identity). -/
def glmRotate (angle : FExp) (axis : Vec3) : Mat4 :=
  let c := FExp.cos angle
  let s := FExp.sin angle
  let tx := FExp.mul (.sub (.lit 1) c) axis.x
  let ty := FExp.mul (.sub (.lit 1) c) axis.y
  let tz := FExp.mul (.sub (.lit 1) c) axis.z
  { c0 := ⟨.add c (.mul tx axis.x), .add (.mul tx axis.y) (.mul s axis.z),
           .sub (.mul tx axis.z) (.mul s axis.y), .lit 0⟩
    c1 := ⟨.sub (.mul ty axis.x) (.mul s axis.z), .add c (.mul ty axis.y),
           .add (.mul ty axis.z) (.mul s axis.x), .lit 0⟩
    c2 := ⟨.add (.mul tz axis.x) (.mul s axis.y), .sub (.mul tz axis.y) (.mul s axis.x),
           .add c (.mul tz axis.z), .lit 0⟩
    c3 := ⟨.lit 0, .lit 0, .lit 0, .lit 1⟩ }

/-- nvh::geometry::Vertex. -/
structure Vertex where
  position : Vec4
  normal : Vec4
  texcoord : Vec4
  deriving DecidableEq, Repr

/-- The Vertex constructor: `position = (pos, 1)`, `normal = (n, 0)`,
`texcoord = (uv, 0, 0)`. -/
def Vertex.make (pos : Vec3) (n : Vec3) (uv : Vec2) : Vertex :=
  { position := ⟨pos.x, pos.y, pos.z, .lit 1⟩
    normal := ⟨n.x, n.y, n.z, .lit 0⟩
    texcoord := ⟨uv.x, uv.y, .lit 0, .lit 0⟩ }

/-- nvh::geometry::Mesh (instantiated at `TVertex = Vertex`): vertex buffer,
triangle index buffer and outline index buffer. -/
structure Mesh where
  m_vertices : List Vertex
  m_indicesTriangles : List (ℕ × ℕ × ℕ)
  m_indicesOutline : List (ℕ × ℕ)
  deriving DecidableEq, Repr

/-- The empty mesh (a default-constructed Mesh). -/
def Mesh.empty : Mesh := ⟨[], [], []⟩

/-- `Mesh::append(geo)`: copy `geo`'s vertices and push its indices shifted by
the pre-merge vertex count `offset = m_vertices.size()`. -/
def Mesh.append (m geo : Mesh) : Mesh :=
  let offset := m.m_vertices.length
  { m_vertices := m.m_vertices ++ geo.m_vertices
    m_indicesTriangles := m.m_indicesTriangles ++
      geo.m_indicesTriangles.map (fun t => (t.1 + offset, t.2.1 + offset, t.2.2 + offset))
    m_indicesOutline := m.m_indicesOutline ++
      geo.m_indicesOutline.map (fun e => (e.1 + offset, e.2 + offset)) }

/-- `Mesh::flipWinding()`: swap the `.x` and `.z` component of every triangle. -/
def Mesh.flipWinding (m : Mesh) : Mesh :=
  { m with m_indicesTriangles := m.m_indicesTriangles.map (fun t => (t.2.2, t.2.1, t.1)) }

/-- The vertex loop of `Plane::add`: the `(w+1)*(h+1)` grid, y outer, x inner,
each vertex transformed by `mat`. -/
def Plane.verts (mat : Mat4) (w h : ℕ) : List Vertex :=
  let xmove : FExp := .div (.lit 1) (.ofInt w)
  let ymove : FExp := .div (.lit 1) (.ofInt h)
  (List.range (h + 1)).flatMap (fun (y : ℕ) =>
    (List.range (w + 1)).map (fun (x : ℕ) =>
      let xpos := FExp.mul (.ofInt x) xmove
      let ypos := FExp.mul (.ofInt y) ymove
      let pos : Vec3 := ⟨.mul (.sub xpos (.lit (1/2))) (.lit 2),
                         .mul (.sub ypos (.lit (1/2))) (.lit 2), .lit 0⟩
      let uv : Vec2 := ⟨xpos, ypos⟩
      let normal : Vec3 := ⟨.lit 0, .lit 0, .lit 1⟩
      let vert := Vertex.make pos normal uv
      { vert with position := mat.mulVec vert.position, normal := mat.mulVec vert.normal }))

/-- The triangle loop of `Plane::add`, two triangles per cell (`width = w+1`),
all indices shifted by the vertex offset `n` taken at entry of the call. -/
def Plane.tris (n w h : ℕ) : List (ℕ × ℕ × ℕ) :=
  (List.range h).flatMap (fun y =>
    (List.range w).flatMap (fun x =>
      [(x + (y + 1) * (w + 1) + n, x + y * (w + 1) + n,
        (x + 1) + (y + 1) * (w + 1) + n),
       ((x + 1) + (y + 1) * (w + 1) + n, x + y * (w + 1) + n,
        (x + 1) + y * (w + 1) + n)]))

/-- The four outline loops of `Plane::add`: left and right vertical borders,
then bottom and top horizontal borders. -/
def Plane.outl (n w h : ℕ) : List (ℕ × ℕ) :=
  (List.range h).map (fun y => (y * (w + 1) + n, (y + 1) * (w + 1) + n))
  ++ (List.range h).map (fun y =>
      (y * (w + 1) + w + n, (y + 1) * (w + 1) + w + n))
  ++ (List.range w).map (fun x => (x + n, (x + 1) + n))
  ++ (List.range w).map (fun x =>
      (x + h * (w + 1) + n, (x + 1) + h * (w + 1) + n))

/-- `Plane::add(geo, mat, w, h)`: the vertex loop, the triangle loop and the
outline loops run in sequence, pushing into `geo`, with
`vertOffset = geo.m_vertices.size()` captured at entry. -/
def Plane.add (geo : Mesh) (mat : Mat4) (w h : ℕ) : Mesh :=
  let vertOffset := geo.m_vertices.length
  { m_vertices := geo.m_vertices ++ Plane.verts mat w h
    m_indicesTriangles := geo.m_indicesTriangles ++ Plane.tris vertOffset w h
    m_indicesOutline := geo.m_indicesOutline ++ Plane.outl vertOffset w h }

/-- `glm::mat4(1)`, the identity matrix. -/
def idMat : Mat4 :=
  { c0 := ⟨.lit 1, .lit 0, .lit 0, .lit 0⟩
    c1 := ⟨.lit 0, .lit 1, .lit 0, .lit 0⟩
    c2 := ⟨.lit 0, .lit 0, .lit 1, .lit 0⟩
    c3 := ⟨.lit 0, .lit 0, .lit 0, .lit 1⟩ }

/-- The per-side segment-count table `configs[6][2]` of `Box::add`. -/
def Box.configs (w h d : ℕ) : List (ℕ × ℕ) := [(w, h), (w, h), (d, h), (d, h), (w, d), (w, d)]

/-- The per-side rotation `matrixRot` of `Box::add`. -/
def Box.matrixRot (side : ℕ) : Mat4 :=
  match side with
  | 0 => idMat
  | 1 => glmRotate FExp.pi ⟨.lit 0, .lit 1, .lit 0⟩
  | 2 => glmRotate (.mul FExp.pi (.lit (1/2))) ⟨.lit 0, .lit 1, .lit 0⟩
  | 3 => glmRotate (.mul FExp.pi (.lit (3/2))) ⟨.lit 0, .lit 1, .lit 0⟩
  | 4 => glmRotate (.mul FExp.pi (.lit (1/2))) ⟨.lit 1, .lit 0, .lit 0⟩
  | _ => glmRotate (.mul FExp.pi (.lit (3/2))) ⟨.lit 1, .lit 0, .lit 0⟩

/-- `Box::add(geo, mat, w, h, d)`: six `Plane::add` calls, side `i` with
transform `mat * matrixRot * translate(0,0,1)` and segment counts
`configs[i]`, all appended into the same target mesh. -/
def Box.add (geo : Mesh) (mat : Mat4) (w h d : ℕ) : Mesh :=
  let matrixMove := glmTranslate ⟨.lit 0, .lit 0, .lit 1⟩
  (List.range 6).foldl (fun g side =>
    let cfg := (Box.configs w h d).getD side (0, 0)
    Plane.add g (Mat4.mul (Mat4.mul mat (Box.matrixRot side)) matrixMove) cfg.1 cfg.2) geo

/-- The vertex loop of `Sphere::add`: `(w+1)*(h+1)` lat/long vertices,
z (colatitude ring) outer, xy inner, position on the unit sphere, normal
equal to the position, both transformed by `mat`. -/
def Sphere.verts (mat : Mat4) (w h : ℕ) : List Vertex :=
  let xyshift : FExp := .div (.lit 1) (.ofInt w)
  let zshift : FExp := .div (.lit 1) (.ofInt h)
  (List.range (h + 1)).flatMap (fun (z : ℕ) =>
    (List.range (w + 1)).map (fun (xy : ℕ) =>
      let curxy := FExp.mul xyshift (.ofInt xy)
      let curz := FExp.mul zshift (.ofInt z)
      let anglexy := FExp.mul (.mul curxy FExp.pi) (.lit 2)
      let anglez := FExp.mul (.sub (.lit 1) curz) FExp.pi
      let pos : Vec3 := ⟨.mul (.cos anglexy) (.sin anglez),
                         .mul (.sin anglexy) (.sin anglez), .cos anglez⟩
      let uv : Vec2 := ⟨curxy, curz⟩
      let vert := Vertex.make pos pos uv
      { vert with position := mat.mulVec vert.position, normal := mat.mulVec vert.normal }))

/-- The triangle loop of `Sphere::add`: per quad, the first triangle is
skipped on the last ring (`z = zdim - 1`) and the second triangle on the
first ring (`z = 0`).  The running counter `vertex` of the source equals
`z * width + xy` with `width = w + 1`; `n` is the vertex offset at entry. -/
def Sphere.tris (n w h : ℕ) : List (ℕ × ℕ × ℕ) :=
  (List.range h).flatMap (fun z =>
    (List.range w).flatMap (fun xy =>
      let vertex := z * (w + 1) + xy
      (if z ≠ h - 1 then
        [(vertex + (w + 1) + 1 + n, vertex + (w + 1) + n, vertex + n)]
       else []) ++
      (if z ≠ 0 then
        [(vertex + n, vertex + 1 + n, vertex + (w + 1) + 1 + n)]
       else [])))

/-- The outline loops of `Sphere::add`: one ring at the middle colatitude
index `middlez = zdim / 2`, then four meridians at longitude quarters
`x = (xydim * i) / 4`. -/
def Sphere.outl (n w h : ℕ) : List (ℕ × ℕ) :=
  (List.range w).map (fun xy =>
    ((h / 2) * (w + 1) + xy + n, (h / 2) * (w + 1) + xy + 1 + n))
  ++ (List.range 4).flatMap (fun i =>
      (List.range h).map (fun z =>
        ((w * i) / 4 + (w + 1) * z + n, (w * i) / 4 + (w + 1) * (z + 1) + n)))

/-- `Sphere::add(geo, mat, w, h)` (`xydim = w`, `zdim = h`): the vertex loop,
the triangle loop and the outline loops run in sequence, pushing into `geo`,
with `vertOffset = geo.m_vertices.size()` captured at entry. -/
def Sphere.add (geo : Mesh) (mat : Mat4) (w h : ℕ) : Mesh :=
  let vertOffset := geo.m_vertices.length
  { m_vertices := geo.m_vertices ++ Sphere.verts mat w h
    m_indicesTriangles := geo.m_indicesTriangles ++ Sphere.tris vertOffset w h
    m_indicesOutline := geo.m_indicesOutline ++ Sphere.outl vertOffset w h }

/-- The vertex loop of `Torus::add`.  Exactly as in the source: the transform
`mat` is never applied to any vertex; `theta_step = 2π/hf` is used with the
`latitude` counter that runs to `w`, and `phi_step = 2π/wf` with the
`longitude` counter that runs to `h` (inner radius 0.8, outer radius 0.2). -/
def Torus.verts (w h : ℕ) : List Vertex :=
  let innerRadius : FExp := .lit (4/5)
  let outerRadius : FExp := .lit (1/5)
  let wf : FExp := .ofInt w
  let hf : FExp := .ofInt h
  let phiStep : FExp := .div (.mul (.lit 2) FExp.pi) wf
  let thetaStep : FExp := .div (.mul (.lit 2) FExp.pi) hf
  (List.range (w + 1)).flatMap (fun (latitude : ℕ) =>
    let theta := FExp.mul (.ofInt latitude) thetaStep
    let sinTheta := FExp.sin theta
    let cosTheta := FExp.cos theta
    let radius := FExp.add innerRadius (.mul outerRadius cosTheta)
    (List.range (h + 1)).map (fun (longitude : ℕ) =>
      let phi := FExp.mul (.ofInt longitude) phiStep
      let sinPhi := FExp.sin phi
      let cosPhi := FExp.cos phi
      let pos : Vec3 := ⟨.mul radius cosPhi, .mul outerRadius sinTheta,
                         .mul radius (.neg sinPhi)⟩
      let nrm : Vec3 := ⟨.mul cosPhi cosTheta, sinTheta, .mul (.neg sinPhi) cosTheta⟩
      let uv : Vec2 := ⟨.div (.ofInt longitude) wf, .div (.ofInt latitude) hf⟩
      Vertex.make pos nrm uv))

/-- The triangle loop of `Torus::add`: two triangles per quad with stride
`columns = w + 1`, although each latitude row stores `h + 1` vertices.  As in
the source, no vertex offset of the target mesh is added. -/
def Torus.tris (w h : ℕ) : List (ℕ × ℕ × ℕ) :=
  (List.range w).flatMap (fun latitude =>
    (List.range h).flatMap (fun longitude =>
      [(latitude * (w + 1) + longitude, latitude * (w + 1) + longitude + 1,
        (latitude + 1) * (w + 1) + longitude),
       ((latitude + 1) * (w + 1) + longitude, latitude * (w + 1) + longitude + 1,
        (latitude + 1) * (w + 1) + longitude + 1)]))

/-- The outline loops of `Torus::add`: outer-ring lines at the four quarter
latitudes, then inner-ring lines at the four quarter longitudes.  The source
computes `y * (0.25 * h)` and `x * (0.25 * w)` in double arithmetic and
truncates to unsigned, which for these small nonnegative integers equals
truncated natural division `y * h / 4` and `x * w / 4`.  No vertex offset is
added. -/
def Torus.outl (w h : ℕ) : List (ℕ × ℕ) :=
  (List.range w).flatMap (fun longitude =>
    (List.range 4).map (fun y =>
      (y * h / 4 * (w + 1) + longitude, y * h / 4 * (w + 1) + longitude + 1)))
  ++ (List.range 4).flatMap (fun x =>
      (List.range h).map (fun latitude =>
        (latitude * (w + 1) + x * w / 4, (latitude + 1) * (w + 1) + x * w / 4)))

/-- `Torus::add(geo, mat, w, h)`: the vertex loop, the triangle loop and the
outline loops run in sequence, pushing into `geo`.  `mat` is unused, exactly
as in the source. -/
def Torus.add (geo : Mesh) (mat : Mat4) (w h : ℕ) : Mesh :=
  { m_vertices := geo.m_vertices ++ Torus.verts w h
    m_indicesTriangles := geo.m_indicesTriangles ++ Torus.tris w h
    m_indicesOutline := geo.m_indicesOutline ++ Torus.outl w h }

/-- The cube record of `RandomMengerSponge::add`. -/
structure Cube where
  m_topLeftFront : Vec3
  m_size : FExp
  deriving DecidableEq, Repr

/-- `Cube::split`: 3*3*3 sub-cubes of one third the size; the `(x,y)` pairs
with `x = 1 ∧ y = 1` skip the whole `z` loop, and inside it `x = 1 ∧ z = 1`
and `y = 1 ∧ z = 1` are skipped. -/
def Cube.split (c : Cube) : List Cube :=
  let size := FExp.div c.m_size (.lit 3)
  (List.range 3).flatMap (fun (x : ℕ) =>
    (List.range 3).flatMap (fun (y : ℕ) =>
      if x = 1 ∧ y = 1 then [] else
      (List.range 3).flatMap (fun (z : ℕ) =>
        if (x = 1 ∧ z = 1) ∨ (y = 1 ∧ z = 1) then [] else
        [{ m_topLeftFront := ⟨.add c.m_topLeftFront.x (.mul (.ofInt x) size),
                              .add c.m_topLeftFront.y (.mul (.ofInt y) size),
                              .add c.m_topLeftFront.z (.mul (.ofInt z) size)⟩
           m_size := size }])))

/-- `Cube::splitProb`: every one of the 27 sub-cubes draws one sample
`rand()/RAND_MAX` and is kept iff the sample is not greater than `prob`.
The process-wide random source is embedded as the stream `rng` together with
a cursor `k`: draw `n` of the call reads `rng (k + n)`, and the cursor after
the call is `k + 27`. -/
def Cube.splitProb (c : Cube) (prob : ℚ) (rng : ℕ → ℚ) (k : ℕ) : List Cube × ℕ :=
  let size := FExp.div c.m_size (.lit 3)
  (((List.range 3).flatMap (fun (x : ℕ) =>
    (List.range 3).flatMap (fun (y : ℕ) =>
      (List.range 3).flatMap (fun (z : ℕ) =>
        if rng (k + 9 * x + 3 * y + z) > prob then [] else
        [{ m_topLeftFront := ⟨.add c.m_topLeftFront.x (.mul (.ofInt x) size),
                              .add c.m_topLeftFront.y (.mul (.ofInt y) size),
                              .add c.m_topLeftFront.z (.mul (.ofInt z) size)⟩
           m_size := size }])))), k + 27)

/-- One pass of the level loop body: split every cube of the working set,
`split` when `probability < 0`, else `splitProb`, threading the random
cursor left to right. -/
def splitAll (cs : List Cube) (prob : ℚ) (rng : ℕ → ℚ) (k : ℕ) : List Cube × ℕ :=
  match cs with
  | [] => ([], k)
  | c :: rest =>
    let first := if prob < 0 then (c.split, k) else c.splitProb prob rng k
    let rest' := splitAll rest prob rng first.2
    (first.1 ++ rest'.1, rest'.2)

/-- The working set after `level` iterations of the subdivision loop,
starting from the single initial cube, with the random cursor. -/
def mengerCubes (level : ℕ) (prob : ℚ) (rng : ℕ → ℚ) (k : ℕ) : List Cube × ℕ :=
  (List.range level).foldl (fun acc _ => splitAll acc.1 prob rng acc.2)
    ([{ m_topLeftFront := ⟨.lit (-(1/4)), .lit (-(1/4)), .lit (-(1/4))⟩, m_size := .lit (1/2) }], k)

/-- `RandomMengerSponge::add(geo, mat, w, h, d, level, probability)`: iterate
the split `level` times, then instance `Box::add` with segment counts 1,1,1
at `translate(c.m_topLeftFront) * scale(c.m_size)` for every surviving cube.
As in the source, `mat`, `w`, `h` and `d` are never used.  Returns the mesh
and the random cursor after the call. -/
def RandomMengerSponge.add (geo : Mesh) (mat : Mat4) (w h d : ℕ) (level : ℕ)
    (probability : ℚ) (rng : ℕ → ℚ) (k : ℕ) : Mesh × ℕ :=
  let cubes := mengerCubes level probability rng k
  (cubes.1.foldl (fun g c =>
    Box.add g (Mat4.mul (glmTranslate c.m_topLeftFront) (glmScale c.m_size)) 1 1 1) geo,
   cubes.2)

/-- All three components of a triangle lie in `[lo, hi)`. -/
def triBdd (lo hi : ℕ) (t : ℕ × ℕ × ℕ) : Prop :=
  lo ≤ t.1 ∧ t.1 < hi ∧ lo ≤ t.2.1 ∧ t.2.1 < hi ∧ lo ≤ t.2.2 ∧ t.2.2 < hi

/-- Both components of an outline segment lie in `[lo, hi)`. -/
def lineBdd (lo hi : ℕ) (e : ℕ × ℕ) : Prop :=
  lo ≤ e.1 ∧ e.1 < hi ∧ lo ≤ e.2 ∧ e.2 < hi

instance (lo hi : ℕ) (t : ℕ × ℕ × ℕ) : Decidable (triBdd lo hi t) := by
  unfold triBdd
  infer_instance

instance (lo hi : ℕ) (e : ℕ × ℕ) : Decidable (lineBdd lo hi e) := by
  unfold lineBdd
  infer_instance

/-- The central invariant: every index of both index buffers refers to an
existing vertex. -/
def Mesh.indicesValid (m : Mesh) : Prop :=
  (∀ t ∈ m.m_indicesTriangles, triBdd 0 m.m_vertices.length t) ∧
  (∀ e ∈ m.m_indicesOutline, lineBdd 0 m.m_vertices.length e)

instance (m : Mesh) : Decidable m.indicesValid := by
  unfold Mesh.indicesValid
  infer_instance

/-- `m'` extends `m` by appended vertices, triangles and outline segments
whose indices all lie in the appended vertex range
`[m.vlen, m.vlen + appended)`. -/
def Mesh.extendsBdd (m m' : Mesh) : Prop :=
  ∃ V T O, m'.m_vertices = m.m_vertices ++ V ∧
    m'.m_indicesTriangles = m.m_indicesTriangles ++ T ∧
    m'.m_indicesOutline = m.m_indicesOutline ++ O ∧
    (∀ t ∈ T, triBdd m.m_vertices.length (m.m_vertices.length + V.length) t) ∧
    (∀ e ∈ O, lineBdd m.m_vertices.length (m.m_vertices.length + V.length) e)

/-- The indices appended between mesh state `m` and mesh state `m'` all lie in
`[m.vlen, m'.vlen)`, i.e. they refer only to the appended vertices. -/
def Mesh.appendedIndicesWithin (m m' : Mesh) : Prop :=
  (∀ t ∈ m'.m_indicesTriangles.drop m.m_indicesTriangles.length,
     triBdd m.m_vertices.length m'.m_vertices.length t) ∧
  (∀ e ∈ m'.m_indicesOutline.drop m.m_indicesOutline.length,
     lineBdd m.m_vertices.length m'.m_vertices.length e)

instance (m m' : Mesh) : Decidable (m.appendedIndicesWithin m') := by
  unfold Mesh.appendedIndicesWithin
  infer_instance

/-- Modelled from the spec (section 4.5): the classic Menger removal
pattern — a sub-cube at grid position `(x, y, z)` of the 3*3*3 split is
removed exactly when at least two of its three grid-axis indices equal the
center index 1 (the center cube and the six face centers). -/
def mengerRemovedSpec (x y z : ℕ) : Prop :=
  (x = 1 ∧ y = 1) ∨ (x = 1 ∧ z = 1) ∨ (y = 1 ∧ z = 1)

instance (x y z : ℕ) : Decidable (mengerRemovedSpec x y z) := by
  unfold mengerRemovedSpec
  infer_instance

/-- Modelled from the spec (section 4.5): one deterministic split step keeps
exactly the sub-cubes not removed by the Menger pattern. -/
def mengerSplitSpec (c : Cube) : List Cube :=
  let size := FExp.div c.m_size (.lit 3)
  (List.range 3).flatMap (fun (x : ℕ) =>
    (List.range 3).flatMap (fun (y : ℕ) =>
      (List.range 3).flatMap (fun (z : ℕ) =>
        if mengerRemovedSpec x y z then [] else
        [{ m_topLeftFront := ⟨.add c.m_topLeftFront.x (.mul (.ofInt x) size),
                              .add c.m_topLeftFront.y (.mul (.ofInt y) size),
                              .add c.m_topLeftFront.z (.mul (.ofInt z) size)⟩
           m_size := size }])))

/-- One mesh-building operation of the generator API. -/
inductive Op : Type
  | plane (mat : Mat4) (w h : ℕ)
  | box (mat : Mat4) (w h d : ℕ)
  | sphere (mat : Mat4) (w h : ℕ)
  | torus (mat : Mat4) (w h : ℕ)
  | menger (mat : Mat4) (w h d level : ℕ) (prob : ℚ) (rng : ℕ → ℚ) (k : ℕ)
  | append (other : Mesh)
  | flip

/-- Application of one operation to the working mesh. -/
def Op.apply (m : Mesh) : Op → Mesh
  | .plane mat w h => Plane.add m mat w h
  | .box mat w h d => Box.add m mat w h d
  | .sphere mat w h => Sphere.add m mat w h
  | .torus mat w h => Torus.add m mat w h
  | .menger mat w h d level prob rng k => (RandomMengerSponge.add m mat w h d level prob rng k).1
  | .append o => m.append o
  | .flip => m.flipWinding

/-- Well-formedness of one operation: segment counts at least 1, a mesh
passed to `append` itself satisfies the index invariant, and every Torus
call additionally has `w ≤ h` (the amendment forced by the Torus stride
quirk). -/
def Op.WF : Op → Prop
  | .plane _ w h => 1 ≤ w ∧ 1 ≤ h
  | .box _ w h d => 1 ≤ w ∧ 1 ≤ h ∧ 1 ≤ d
  | .sphere _ w h => 1 ≤ w ∧ 1 ≤ h
  | .torus _ w h => 1 ≤ w ∧ 1 ≤ h ∧ w ≤ h
  | .menger _ w h d _ _ _ _ => 1 ≤ w ∧ 1 ≤ h ∧ 1 ≤ d
  | .append o => o.indicesValid
  | .flip => True

instance : (op : Op) → Decidable op.WF
  | .plane _ w h => inferInstanceAs (Decidable (1 ≤ w ∧ 1 ≤ h))
  | .box _ w h d => inferInstanceAs (Decidable (1 ≤ w ∧ 1 ≤ h ∧ 1 ≤ d))
  | .sphere _ w h => inferInstanceAs (Decidable (1 ≤ w ∧ 1 ≤ h))
  | .torus _ w h => inferInstanceAs (Decidable (1 ≤ w ∧ 1 ≤ h ∧ w ≤ h))
  | .menger _ w h d _ _ _ _ => inferInstanceAs (Decidable (1 ≤ w ∧ 1 ≤ h ∧ 1 ≤ d))
  | .append o => inferInstanceAs (Decidable o.indicesValid)
  | .flip => inferInstanceAs (Decidable True)

/-- A nonzero numeric constant: the only denominators the generators form. -/
def FExp.nzConst : FExp → Prop
  | .lit q => q ≠ 0
  | .ofInt n => n ≠ 0
  | .pi => True
  | .neg _ => False
  | .add _ _ => False
  | .sub _ _ => False
  | .mul _ _ => False
  | .div _ _ => False
  | .sin _ => False
  | .cos _ => False

/-- Every division node of the expression divides by a nonzero numeric
constant: the shallow-embedding statement that the computation performs no
division by zero. -/
def FExp.goodDenoms : FExp → Prop
  | .lit _ => True
  | .pi => True
  | .ofInt _ => True
  | .neg a => a.goodDenoms
  | .add a b => a.goodDenoms ∧ b.goodDenoms
  | .sub a b => a.goodDenoms ∧ b.goodDenoms
  | .mul a b => a.goodDenoms ∧ b.goodDenoms
  | .div a b => a.goodDenoms ∧ b.goodDenoms ∧ b.nzConst
  | .sin a => a.goodDenoms
  | .cos a => a.goodDenoms

instance FExp.nzConstDec : (e : FExp) → Decidable e.nzConst
  | .lit q => inferInstanceAs (Decidable (q ≠ 0))
  | .ofInt n => inferInstanceAs (Decidable (n ≠ 0))
  | .pi => inferInstanceAs (Decidable True)
  | .neg _ => inferInstanceAs (Decidable False)
  | .add _ _ => inferInstanceAs (Decidable False)
  | .sub _ _ => inferInstanceAs (Decidable False)
  | .mul _ _ => inferInstanceAs (Decidable False)
  | .div _ _ => inferInstanceAs (Decidable False)
  | .sin _ => inferInstanceAs (Decidable False)
  | .cos _ => inferInstanceAs (Decidable False)

instance FExp.goodDenomsDec : (e : FExp) → Decidable e.goodDenoms
  | .lit _ => inferInstanceAs (Decidable True)
  | .pi => inferInstanceAs (Decidable True)
  | .ofInt _ => inferInstanceAs (Decidable True)
  | .neg a =>
    have da := FExp.goodDenomsDec a
    inferInstanceAs (Decidable a.goodDenoms)
  | .add a b =>
    have da := FExp.goodDenomsDec a
    have db := FExp.goodDenomsDec b
    inferInstanceAs (Decidable (a.goodDenoms ∧ b.goodDenoms))
  | .sub a b =>
    have da := FExp.goodDenomsDec a
    have db := FExp.goodDenomsDec b
    inferInstanceAs (Decidable (a.goodDenoms ∧ b.goodDenoms))
  | .mul a b =>
    have da := FExp.goodDenomsDec a
    have db := FExp.goodDenomsDec b
    inferInstanceAs (Decidable (a.goodDenoms ∧ b.goodDenoms))
  | .div a b =>
    have da := FExp.goodDenomsDec a
    have db := FExp.goodDenomsDec b
    inferInstanceAs (Decidable (a.goodDenoms ∧ b.goodDenoms ∧ b.nzConst))
  | .sin a =>
    have da := FExp.goodDenomsDec a
    inferInstanceAs (Decidable a.goodDenoms)
  | .cos a =>
    have da := FExp.goodDenomsDec a
    inferInstanceAs (Decidable a.goodDenoms)

/-- All four components divide only by nonzero constants. -/
def Vec4.goodDenoms (v : Vec4) : Prop :=
  v.x.goodDenoms ∧ v.y.goodDenoms ∧ v.z.goodDenoms ∧ v.w.goodDenoms

instance (v : Vec4) : Decidable v.goodDenoms := by
  unfold Vec4.goodDenoms
  infer_instance

/-- All three attribute vectors divide only by nonzero constants. -/
def Vertex.goodDenoms (v : Vertex) : Prop :=
  v.position.goodDenoms ∧ v.normal.goodDenoms ∧ v.texcoord.goodDenoms

instance (v : Vertex) : Decidable v.goodDenoms := by
  unfold Vertex.goodDenoms
  infer_instance

/-- All sixteen entries divide only by nonzero constants. -/
def Mat4.goodDenoms (m : Mat4) : Prop :=
  m.c0.goodDenoms ∧ m.c1.goodDenoms ∧ m.c2.goodDenoms ∧ m.c3.goodDenoms

instance (m : Mat4) : Decidable m.goodDenoms := by
  unfold Mat4.goodDenoms
  infer_instance

/-- Every vertex of the mesh divides only by nonzero constants. -/
def Mesh.goodDenoms (m : Mesh) : Prop :=
  ∀ v ∈ m.m_vertices, v.goodDenoms

instance (m : Mesh) : Decidable m.goodDenoms := by
  unfold Mesh.goodDenoms
  infer_instance

/-- A cube whose recorded origin and size divide only by nonzero constants. -/
def Cube.goodDenoms (c : Cube) : Prop :=
  c.m_topLeftFront.x.goodDenoms ∧ c.m_topLeftFront.y.goodDenoms ∧
  c.m_topLeftFront.z.goodDenoms ∧ c.m_size.goodDenoms

instance (c : Cube) : Decidable c.goodDenoms := by
  unfold Cube.goodDenoms
  infer_instance

lemma Mesh.extendsBdd.refl (m : Mesh) : m.extendsBdd m :=
  ⟨[], [], [], by simp, by simp, by simp, by simp, by simp⟩

lemma Mesh.extendsBdd.trans {m m1 m2 : Mesh} (h1 : m.extendsBdd m1) (h2 : m1.extendsBdd m2) :
    m.extendsBdd m2 := by
  obtain ⟨V1, T1, O1, hv1, ht1, ho1, hbt1, hbo1⟩ := h1
  obtain ⟨V2, T2, O2, hv2, ht2, ho2, hbt2, hbo2⟩ := h2
  refine ⟨V1 ++ V2, T1 ++ T2, O1 ++ O2, by rw [hv2, hv1, List.append_assoc],
    by rw [ht2, ht1, List.append_assoc], by rw [ho2, ho1, List.append_assoc], ?_, ?_⟩
  · intro t ht
    rcases List.mem_append.mp ht with hmem | hmem
    · have := hbt1 t hmem
      unfold triBdd at this ⊢
      simp only [List.length_append]
      omega
    · have := hbt2 t hmem
      have hlen : m1.m_vertices.length = m.m_vertices.length + V1.length := by
        rw [hv1, List.length_append]
      unfold triBdd at this ⊢
      simp only [List.length_append]
      omega
  · intro e he
    rcases List.mem_append.mp he with hmem | hmem
    · have := hbo1 e hmem
      unfold lineBdd at this ⊢
      simp only [List.length_append]
      omega
    · have := hbo2 e hmem
      have hlen : m1.m_vertices.length = m.m_vertices.length + V1.length := by
        rw [hv1, List.length_append]
      unfold lineBdd at this ⊢
      simp only [List.length_append]
      omega

lemma Mesh.extendsBdd.valid {m m' : Mesh} (hv : m.indicesValid) (he : m.extendsBdd m') :
    m'.indicesValid := by
  obtain ⟨V, T, O, hV, hT, hO, hbT, hbO⟩ := he
  obtain ⟨hvt, hvo⟩ := hv
  constructor
  · intro t ht
    rw [hT] at ht
    rw [hV, List.length_append]
    rcases List.mem_append.mp ht with hmem | hmem
    · have := hvt t hmem
      unfold triBdd at this ⊢
      omega
    · have := hbT t hmem
      unfold triBdd at this ⊢
      omega
  · intro e heo
    rw [hO] at heo
    rw [hV, List.length_append]
    rcases List.mem_append.mp heo with hmem | hmem
    · have := hvo e hmem
      unfold lineBdd at this ⊢
      omega
    · have := hbO e hmem
      unfold lineBdd at this ⊢
      omega

lemma Mesh.extendsBdd.within {m m' : Mesh} (he : m.extendsBdd m') :
    m.appendedIndicesWithin m' := by
  obtain ⟨V, T, O, hV, hT, hO, hbT, hbO⟩ := he
  have hlen : m'.m_vertices.length = m.m_vertices.length + V.length := by
    rw [hV, List.length_append]
  constructor
  · intro t ht
    rw [hT, List.drop_left] at ht
    rw [hlen]
    exact hbT t ht
  · intro e heo
    rw [hO, List.drop_left] at heo
    rw [hlen]
    exact hbO e heo

lemma Mesh.extendsBdd.foldl {α : Type} (f : Mesh → α → Mesh) :
    ∀ (l : List α), (∀ m a, a ∈ l → Mesh.extendsBdd m (f m a)) →
      ∀ m : Mesh, Mesh.extendsBdd m (l.foldl f m)
  | [], _, m => by simpa using Mesh.extendsBdd.refl m
  | a :: rest, hstep, m => by
    rw [List.foldl_cons]
    exact Mesh.extendsBdd.trans (hstep m a (by simp))
      (Mesh.extendsBdd.foldl f rest (fun m' b hb => hstep m' b (by simp [hb])) (f m a))

/-- Key grid bound: a cell coordinate pair addresses a vertex of the
`(w+1)*(h+1)` grid. -/
lemma cell_lt {x y w h : ℕ} (hx : x < w + 1) (hy : y ≤ h) :
    x + y * (w + 1) < (w + 1) * (h + 1) := by
  have h1 : x + y * (w + 1) < (w + 1) + h * (w + 1) :=
    Nat.add_lt_add_of_lt_of_le hx (Nat.mul_le_mul_right _ hy)
  have h2 : (w + 1) + h * (w + 1) = (w + 1) * (h + 1) := by ring
  omega

/-- Index bound of the skewed torus index grid, valid when `w ≤ h`. -/
lemma torus_cell_lt {lat long w h : ℕ} (hlat : lat ≤ w) (hlong : long ≤ h) (hwh : w ≤ h) :
    lat * (w + 1) + long < (w + 1) * (h + 1) := by
  have h1 : lat * (w + 1) ≤ w * (w + 1) := Nat.mul_le_mul_right _ hlat
  have h2 : w * w ≤ w * h := Nat.mul_le_mul_left _ hwh
  nlinarith

lemma length_flatMap_range {α : Type} {f : ℕ → List α} {n c : ℕ}
    (h : ∀ i, i < n → (f i).length = c) :
    ((List.range n).flatMap f).length = n * c := by
  rw [List.length_flatMap]
  have heq : (List.range n).map (List.length ∘ f) = (List.range n).map (fun _ => c) :=
    List.map_congr_left (fun a ha => h a (List.mem_range.mp ha))
  rw [heq]
  simp [List.map_const]

lemma sum_map_range_add (n : ℕ) (f g : ℕ → ℕ) :
    ((List.range n).map (fun z => f z + g z)).sum =
      ((List.range n).map f).sum + ((List.range n).map g).sum := by
  induction n with
  | zero => simp
  | succ m ih => simp [List.range_succ, ih]; omega

lemma sum_map_range_ne_zero (n c : ℕ) :
    ((List.range n).map (fun z => if z ≠ 0 then c else 0)).sum = (n - 1) * c := by
  induction n with
  | zero => simp
  | succ m ih =>
    rw [List.range_succ]
    simp only [List.map_append, List.sum_append, ih]
    cases m with
    | zero => simp
    | succ p => simp [Nat.succ_sub_one]; ring

lemma sum_map_range_ne_last (n c : ℕ) (hn : 1 ≤ n) :
    ((List.range n).map (fun z => if z ≠ n - 1 then c else 0)).sum = (n - 1) * c := by
  obtain ⟨m, rfl⟩ : ∃ m, n = m + 1 := ⟨n - 1, by omega⟩
  rw [List.range_succ]
  simp only [List.map_append, List.sum_append, Nat.add_sub_cancel]
  have heq : (List.range m).map (fun z => if z ≠ m then c else 0) =
      (List.range m).map (fun _ => c) := by
    apply List.map_congr_left
    intro a ha
    have := List.mem_range.mp ha
    simp
    omega
  rw [heq]
  simp [List.map_const]

lemma length_flatMap_range_map {α : Type} (g : ℕ → ℕ → α) (n m : ℕ) :
    ((List.range n).flatMap (fun y => (List.range m).map (g y))).length = n * m :=
  length_flatMap_range (fun _ _ => by rw [List.length_map, List.length_range])

lemma length_flatMap_range_pair {α : Type} (g g' : ℕ → ℕ → α) (n m : ℕ) :
    ((List.range n).flatMap (fun y => (List.range m).flatMap
      (fun x => [g y x, g' y x]))).length = n * (m * 2) :=
  length_flatMap_range (fun _ _ => length_flatMap_range (fun _ _ => rfl))

lemma plane_verts_length (mat : Mat4) (w h : ℕ) :
    (Plane.verts mat w h).length = (w + 1) * (h + 1) := by
  simp only [Plane.verts]
  rw [length_flatMap_range_map]
  ring

lemma plane_tris_length (n w h : ℕ) :
    (Plane.tris n w h).length = 2 * w * h := by
  simp only [Plane.tris]
  rw [length_flatMap_range_pair]
  ring

lemma plane_tris_bound {t : ℕ × ℕ × ℕ} {n w h : ℕ} (ht : t ∈ Plane.tris n w h) :
    triBdd n (n + (w + 1) * (h + 1)) t := by
  unfold Plane.tris at ht
  simp only [List.mem_flatMap, List.mem_range, List.mem_cons,
    List.not_mem_nil, or_false] at ht
  obtain ⟨y, hy, x, hx, ht⟩ := ht
  have b1 : x + (y + 1) * (w + 1) < (w + 1) * (h + 1) := cell_lt (by omega) (by omega)
  have b2 : x + y * (w + 1) < (w + 1) * (h + 1) := cell_lt (by omega) (by omega)
  have b3 : (x + 1) + (y + 1) * (w + 1) < (w + 1) * (h + 1) := cell_lt (by omega) (by omega)
  have b4 : (x + 1) + y * (w + 1) < (w + 1) * (h + 1) := cell_lt (by omega) (by omega)
  unfold triBdd
  rcases ht with rfl | rfl <;> simp <;> omega

lemma plane_outl_bound {e : ℕ × ℕ} {n w h : ℕ} (he : e ∈ Plane.outl n w h) :
    lineBdd n (n + (w + 1) * (h + 1)) e := by
  unfold Plane.outl at he
  simp only [List.mem_append, List.mem_map, List.mem_range] at he
  unfold lineBdd
  rcases he with ((⟨y, hy, rfl⟩ | ⟨y, hy, rfl⟩) | ⟨x, hx, rfl⟩) | ⟨x, hx, rfl⟩
  · have b1 : 0 + y * (w + 1) < (w + 1) * (h + 1) := cell_lt (by omega) (by omega)
    have b2 : 0 + (y + 1) * (w + 1) < (w + 1) * (h + 1) := cell_lt (by omega) (by omega)
    simp <;> omega
  · have b1 : w + y * (w + 1) < (w + 1) * (h + 1) := cell_lt (by omega) (by omega)
    have b2 : w + (y + 1) * (w + 1) < (w + 1) * (h + 1) := cell_lt (by omega) (by omega)
    simp <;> omega
  · have b1 : (x + 1) + 0 * (w + 1) < (w + 1) * (h + 1) := cell_lt (by omega) (by omega)
    simp <;> omega
  · have b1 : (x + 1) + h * (w + 1) < (w + 1) * (h + 1) := cell_lt (by omega) (by omega)
    simp <;> omega

lemma plane_add_extendsBdd (geo : Mesh) (mat : Mat4) (w h : ℕ) :
    geo.extendsBdd (Plane.add geo mat w h) := by
  refine ⟨Plane.verts mat w h, Plane.tris geo.m_vertices.length w h,
    Plane.outl geo.m_vertices.length w h, rfl, rfl, rfl, ?_, ?_⟩
  · intro t ht
    rw [plane_verts_length]
    exact plane_tris_bound ht
  · intro e he
    rw [plane_verts_length]
    exact plane_outl_bound he

lemma box_add_extendsBdd (geo : Mesh) (mat : Mat4) (w h d : ℕ) :
    geo.extendsBdd (Box.add geo mat w h d) := by
  unfold Box.add
  exact Mesh.extendsBdd.foldl _ _ (fun m a _ => plane_add_extendsBdd m _ _ _) geo

lemma menger_add_extendsBdd (geo : Mesh) (mat : Mat4) (w h d level : ℕ)
    (prob : ℚ) (rng : ℕ → ℚ) (k : ℕ) :
    geo.extendsBdd (RandomMengerSponge.add geo mat w h d level prob rng k).1 := by
  unfold RandomMengerSponge.add
  exact Mesh.extendsBdd.foldl _ _ (fun m a _ => box_add_extendsBdd m _ 1 1 1) geo

lemma length_flatMap_range_sum {α : Type} {f : ℕ → List α} {n : ℕ} (g : ℕ → ℕ)
    (h : ∀ i, i < n → (f i).length = g i) :
    ((List.range n).flatMap f).length = ((List.range n).map g).sum := by
  rw [List.length_flatMap]
  exact congrArg List.sum (List.map_congr_left (fun a ha => h a (List.mem_range.mp ha)))

lemma sphere_verts_length (mat : Mat4) (w h : ℕ) :
    (Sphere.verts mat w h).length = (w + 1) * (h + 1) := by
  simp only [Sphere.verts]
  rw [length_flatMap_range_map]
  ring

lemma sphere_tris_row_length (n w h z : ℕ) :
    ((List.range w).flatMap (fun xy =>
      let vertex := z * (w + 1) + xy
      (if z ≠ h - 1 then
        [(vertex + (w + 1) + 1 + n, vertex + (w + 1) + n, vertex + n)]
       else []) ++
      (if z ≠ 0 then
        [(vertex + n, vertex + 1 + n, vertex + (w + 1) + 1 + n)]
       else []))).length
    = w * ((if z ≠ h - 1 then 1 else 0) + (if z ≠ 0 then 1 else 0)) :=
  length_flatMap_range (fun _ _ => by split_ifs <;> simp)

lemma sphere_tris_length (n w h : ℕ) (hh : 1 ≤ h) :
    (Sphere.tris n w h).length = 2 * w * h - 2 * w := by
  simp only [Sphere.tris]
  rw [length_flatMap_range_sum
    (fun z => w * ((if z ≠ h - 1 then 1 else 0) + (if z ≠ 0 then 1 else 0)))
    (fun z _ => sphere_tris_row_length n w h z)]
  have e1 : ∀ z : ℕ, w * ((if z ≠ h - 1 then 1 else 0) + (if z ≠ 0 then 1 else 0)) =
      (if z ≠ h - 1 then w else 0) + (if z ≠ 0 then w else 0) := by
    intro z
    split_ifs <;> ring
  simp only [e1]
  rw [sum_map_range_add, sum_map_range_ne_zero, sum_map_range_ne_last h w hh]
  obtain ⟨m, rfl⟩ : ∃ m, h = m + 1 := ⟨h - 1, by omega⟩
  have e2 : 2 * w * (m + 1) = 2 * w * m + 2 * w := by ring
  simp only [Nat.add_sub_cancel, e2]
  ring

lemma sphere_tris_bound {t : ℕ × ℕ × ℕ} {n w h : ℕ} (ht : t ∈ Sphere.tris n w h) :
    triBdd n (n + (w + 1) * (h + 1)) t := by
  simp only [Sphere.tris] at ht
  simp only [List.mem_flatMap, List.mem_range] at ht
  obtain ⟨z, hz, xy, hxy, ht⟩ := ht
  have F : (xy + 1) + (z + 1) * (w + 1) < (w + 1) * (h + 1) := cell_lt (by omega) (by omega)
  have e : (xy + 1) + (z + 1) * (w + 1) = z * (w + 1) + xy + (w + 1) + 1 := by ring
  rw [List.mem_append] at ht
  unfold triBdd
  rcases ht with hm | hm <;> (split_ifs at hm <;> simp at hm) <;> (rcases hm with rfl; simp; omega)

lemma sphere_outl_bound {e : ℕ × ℕ} {n w h : ℕ} (he : e ∈ Sphere.outl n w h) :
    lineBdd n (n + (w + 1) * (h + 1)) e := by
  simp only [Sphere.outl] at he
  simp only [List.mem_append, List.mem_map, List.mem_flatMap, List.mem_range] at he
  unfold lineBdd
  rcases he with ⟨xy, hxy, rfl⟩ | ⟨i, hi, z, hz, rfl⟩
  · have F : (xy + 1) + (h / 2) * (w + 1) < (w + 1) * (h + 1) := cell_lt (by omega) (by omega)
    have e1 : (xy + 1) + (h / 2) * (w + 1) = h / 2 * (w + 1) + xy + 1 := by ring
    simp
    omega
  · have h1 : w * i ≤ w * 3 := Nat.mul_le_mul_left _ (by omega)
    have h2 : w * i / 4 ≤ w * 3 / 4 := Nat.div_le_div_right h1
    have F : w * i / 4 + (z + 1) * (w + 1) < (w + 1) * (h + 1) := cell_lt (by omega) (by omega)
    have e1 : w * i / 4 + (z + 1) * (w + 1) = w * i / 4 + (w + 1) * (z + 1) := by ring
    have e2 : (w + 1) * (z + 1) = (w + 1) * z + (w + 1) := by ring
    simp
    omega

lemma sphere_add_extendsBdd (geo : Mesh) (mat : Mat4) (w h : ℕ) :
    geo.extendsBdd (Sphere.add geo mat w h) := by
  refine ⟨Sphere.verts mat w h, Sphere.tris geo.m_vertices.length w h,
    Sphere.outl geo.m_vertices.length w h, rfl, rfl, rfl, ?_, ?_⟩
  · intro t ht
    rw [sphere_verts_length]
    exact sphere_tris_bound ht
  · intro e he
    rw [sphere_verts_length]
    exact sphere_outl_bound he

lemma torus_verts_length (w h : ℕ) :
    (Torus.verts w h).length = (w + 1) * (h + 1) := by
  simp only [Torus.verts]
  rw [length_flatMap_range (c := h + 1) (fun i _ => by simp)]

lemma torus_tris_bound {t : ℕ × ℕ × ℕ} {w h : ℕ} (hwh : w ≤ h) (ht : t ∈ Torus.tris w h) :
    triBdd 0 ((w + 1) * (h + 1)) t := by
  simp only [Torus.tris] at ht
  simp only [List.mem_flatMap, List.mem_range, List.mem_cons,
    List.not_mem_nil, or_false] at ht
  obtain ⟨lat, hlat, long, hlong, ht⟩ := ht
  have F1 : lat * (w + 1) + long < (w + 1) * (h + 1) :=
    torus_cell_lt (by omega) (by omega) hwh
  have F2 : lat * (w + 1) + (long + 1) < (w + 1) * (h + 1) :=
    torus_cell_lt (by omega) (by omega) hwh
  have F3 : (lat + 1) * (w + 1) + long < (w + 1) * (h + 1) :=
    torus_cell_lt (by omega) (by omega) hwh
  have F4 : (lat + 1) * (w + 1) + (long + 1) < (w + 1) * (h + 1) :=
    torus_cell_lt (by omega) (by omega) hwh
  unfold triBdd
  rcases ht with rfl | rfl <;> simp <;> omega

lemma torus_outl_bound {e : ℕ × ℕ} {w h : ℕ} (he : e ∈ Torus.outl w h) :
    lineBdd 0 ((w + 1) * (h + 1)) e := by
  simp only [Torus.outl] at he
  simp only [List.mem_append, List.mem_map, List.mem_flatMap, List.mem_range] at he
  unfold lineBdd
  rcases he with ⟨long, hlong, y, hy, rfl⟩ | ⟨x, hx, lat, hlat, rfl⟩
  · have h1 : y * h ≤ 3 * h := Nat.mul_le_mul_right _ (by omega)
    have h2 : y * h / 4 ≤ 3 * h / 4 := Nat.div_le_div_right h1
    have F : (long + 1) + y * h / 4 * (w + 1) < (w + 1) * (h + 1) :=
      cell_lt (by omega) (by omega)
    simp
    omega
  · have h1 : x * w ≤ 3 * w := Nat.mul_le_mul_right _ (by omega)
    have h2 : x * w / 4 ≤ 3 * w / 4 := Nat.div_le_div_right h1
    have F1 : x * w / 4 + lat * (w + 1) < (w + 1) * (h + 1) := cell_lt (by omega) (by omega)
    have F2 : x * w / 4 + (lat + 1) * (w + 1) < (w + 1) * (h + 1) := cell_lt (by omega) (by omega)
    simp
    omega

lemma Torus.add_valid {geo : Mesh} (mat : Mat4) {w h : ℕ} (hwh : w ≤ h)
    (hv : geo.indicesValid) : (Torus.add geo mat w h).indicesValid := by
  obtain ⟨hvt, hvo⟩ := hv
  have hlen : (Torus.add geo mat w h).m_vertices.length =
      geo.m_vertices.length + (w + 1) * (h + 1) := by
    simp only [Torus.add, List.length_append, torus_verts_length]
  constructor
  · intro t ht
    rw [hlen]
    rcases List.mem_append.mp ht with hm | hm
    · have := hvt t hm
      unfold triBdd at this ⊢
      omega
    · have := torus_tris_bound hwh hm
      unfold triBdd at this ⊢
      omega
  · intro e he
    rw [hlen]
    rcases List.mem_append.mp he with hm | hm
    · have := hvo e hm
      unfold lineBdd at this ⊢
      omega
    · have := torus_outl_bound hm
      unfold lineBdd at this ⊢
      omega

lemma Mesh.append_valid {m o : Mesh} (hm : m.indicesValid) (ho : o.indicesValid) :
    (m.append o).indicesValid := by
  obtain ⟨hmt, hmo⟩ := hm
  obtain ⟨hot, hoo⟩ := ho
  constructor
  · intro t ht
    simp only [Mesh.append, List.length_append]
    simp only [Mesh.append, List.mem_append] at ht
    rcases ht with hmem | hmem
    · have := hmt t hmem
      unfold triBdd at this ⊢
      omega
    · obtain ⟨t0, ht0, rfl⟩ := List.mem_map.mp hmem
      have := hot t0 ht0
      unfold triBdd at this ⊢
      simp
      omega
  · intro e he
    simp only [Mesh.append, List.length_append]
    simp only [Mesh.append, List.mem_append] at he
    rcases he with hmem | hmem
    · have := hmo e hmem
      unfold lineBdd at this ⊢
      omega
    · obtain ⟨e0, he0, rfl⟩ := List.mem_map.mp hmem
      have := hoo e0 he0
      unfold lineBdd at this ⊢
      simp
      omega

lemma Mesh.flipWinding_valid {m : Mesh} (hm : m.indicesValid) :
    m.flipWinding.indicesValid := by
  obtain ⟨hmt, hmo⟩ := hm
  constructor
  · intro t ht
    simp only [Mesh.flipWinding] at ht ⊢
    obtain ⟨t0, ht0, rfl⟩ := List.mem_map.mp ht
    have := hmt t0 ht0
    unfold triBdd at this ⊢
    simp
    omega
  · intro e he
    simp only [Mesh.flipWinding] at he ⊢
    exact hmo e he


lemma plane_add_verts_len (geo : Mesh) (mat : Mat4) (w h : ℕ) :
    (Plane.add geo mat w h).m_vertices.length = geo.m_vertices.length + (w + 1) * (h + 1) := by
  simp [Plane.add, plane_verts_length]

lemma plane_add_tris_len (geo : Mesh) (mat : Mat4) (w h : ℕ) :
    (Plane.add geo mat w h).m_indicesTriangles.length =
      geo.m_indicesTriangles.length + 2 * w * h := by
  simp [Plane.add, plane_tris_length]

lemma box_add_verts_len (geo : Mesh) (mat : Mat4) (w h d : ℕ) :
    (Box.add geo mat w h d).m_vertices.length =
      geo.m_vertices.length +
        2 * ((w + 1) * (h + 1) + (d + 1) * (h + 1) + (w + 1) * (d + 1)) := by
  have hr : List.range 6 = [0, 1, 2, 3, 4, 5] := by decide
  simp only [Box.add, hr, List.foldl_cons, List.foldl_nil, Box.configs,
    List.getD_cons_zero, List.getD_cons_succ, plane_add_verts_len]
  ring

lemma box_add_tris_len (geo : Mesh) (mat : Mat4) (w h d : ℕ) :
    (Box.add geo mat w h d).m_indicesTriangles.length =
      geo.m_indicesTriangles.length + 4 * (w * h + d * h + w * d) := by
  have hr : List.range 6 = [0, 1, 2, 3, 4, 5] := by decide
  simp only [Box.add, hr, List.foldl_cons, List.foldl_nil, Box.configs,
    List.getD_cons_zero, List.getD_cons_succ, plane_add_tris_len]
  ring

lemma Cube.split_length (c : Cube) : c.split.length = 20 := rfl

lemma Cube.split_eq_spec (c : Cube) : c.split = mengerSplitSpec c := rfl

lemma Op.apply_valid {m : Mesh} (hm : m.indicesValid) :
    ∀ (op : Op), op.WF → (op.apply m).indicesValid
  | .plane mat w h, _ => (plane_add_extendsBdd m mat w h).valid hm
  | .box mat w h d, _ => (box_add_extendsBdd m mat w h d).valid hm
  | .sphere mat w h, _ => (sphere_add_extendsBdd m mat w h).valid hm
  | .torus mat _ _, hwf => Torus.add_valid mat hwf.2.2 hm
  | .menger mat w h d level prob rng k, _ =>
    (menger_add_extendsBdd m mat w h d level prob rng k).valid hm
  | .append _, hwf => Mesh.append_valid hm hwf
  | .flip, _ => Mesh.flipWinding_valid hm

/-- C1 (amended): starting from any mesh satisfying the index invariant,
applying any sequence of generator calls (`Plane::add`, `Box::add`,
`Sphere::add`, `Torus::add`, `RandomMengerSponge::add`, all segment counts at
least 1), `append` of an invariant-satisfying mesh, and `flipWinding`, keeps
every component of every entry of `m_indicesTriangles` and of
`m_indicesOutline` strictly below `m_vertices.size()` — provided every
`Torus::add` in the sequence has `w ≤ h` (the amendment: the Torus index
stride makes larger `w` overrun the vertex buffer). -/
theorem claim_C1 : ∀ (ops : List Op) (m : Mesh), m.indicesValid →
    (∀ op ∈ ops, op.WF) → (ops.foldl (fun g op => op.apply g) m).indicesValid
  | [], _, hm, _ => by simpa using hm
  | op :: rest, m, hm, hwf => by
    rw [List.foldl_cons]
    exact claim_C1 rest (op.apply m) (Op.apply_valid hm op (hwf op (by simp)))
      (fun o ho => hwf o (by simp [ho]))

/-- C1 witness: a concrete sequence of well-formed operations on the empty
mesh. -/
theorem claim_C1_witness :
    Mesh.empty.indicesValid ∧
    (∀ op ∈ [Op.plane idMat 1 1, Op.torus idMat 1 2, Op.flip], op.WF) ∧
    ([Op.plane idMat 1 1, Op.torus idMat 1 2, Op.flip].foldl
      (fun g op => op.apply g) Mesh.empty).indicesValid :=
  ⟨by decide, by decide, claim_C1 _ _ (by decide) (by decide)⟩

/-- C1 counterexample: as stated the claim is false — `Torus::add` with
`w = 2, h = 1` (segment counts ≥ 1) on the empty target mesh emits triangle
index 7 while only 6 vertices exist. -/
theorem claim_C1_counterexample :
    ¬ (Torus.add Mesh.empty idMat 2 1).indicesValid := by decide

/-- C2 (amended): on a target mesh holding `n` vertices, every index appended
by `Plane::add`, `Sphere::add` and `Box::add` lies in `[n, n + k)` where `k`
is the number of vertices the call appends; the indices appended by
`Torus::add` instead lie in `[0, k)` with `k = (w+1)*(h+1)` — the call never
adds the vertex offset — and even that only under `w ≤ h`. -/
theorem claim_C2 (geo : Mesh) (mat : Mat4) (w h d : ℕ)
    (hw : 1 ≤ w) (hh : 1 ≤ h) (hd : 1 ≤ d) :
    geo.appendedIndicesWithin (Plane.add geo mat w h) ∧
    geo.appendedIndicesWithin (Sphere.add geo mat w h) ∧
    geo.appendedIndicesWithin (Box.add geo mat w h d) ∧
    (w ≤ h →
      (∀ t ∈ (Torus.add geo mat w h).m_indicesTriangles.drop
          geo.m_indicesTriangles.length, triBdd 0 ((w + 1) * (h + 1)) t) ∧
      (∀ e ∈ (Torus.add geo mat w h).m_indicesOutline.drop
          geo.m_indicesOutline.length, lineBdd 0 ((w + 1) * (h + 1)) e)) := by
  refine ⟨(plane_add_extendsBdd geo mat w h).within,
    (sphere_add_extendsBdd geo mat w h).within,
    (box_add_extendsBdd geo mat w h d).within, fun hwh => ⟨?_, ?_⟩⟩
  · intro t ht
    have hdrop : (Torus.add geo mat w h).m_indicesTriangles.drop
        geo.m_indicesTriangles.length = Torus.tris w h := by
      simp [Torus.add, List.drop_left]
    rw [hdrop] at ht
    exact torus_tris_bound hwh ht
  · intro e he
    have hdrop : (Torus.add geo mat w h).m_indicesOutline.drop
        geo.m_indicesOutline.length = Torus.outl w h := by
      simp [Torus.add, List.drop_left]
    rw [hdrop] at he
    exact torus_outl_bound he

/-- C2 witness: the Plane part of the amended claim at a concrete call. -/
theorem claim_C2_witness :
    Mesh.empty.appendedIndicesWithin (Plane.add Mesh.empty idMat 1 1) :=
  (claim_C2 Mesh.empty idMat 1 1 1 (by decide) (by decide) (by decide)).1

/-- C2 counterexample: as stated the claim is false for `Torus::add` — called
on a target already holding 4 vertices (a unit Plane), the appended triangle
indices start at 0, not at the vertex offset 4. -/
theorem claim_C2_counterexample :
    ¬ (Plane.add Mesh.empty idMat 1 1).appendedIndicesWithin
        (Torus.add (Plane.add Mesh.empty idMat 1 1) idMat 1 1) := by decide

/-- C3: if `meshA` is an element-wise copy of `meshB`, then after
`append(meshA, meshB)` the vertex count is `2 * |meshB.vertices|`, meshB's
vertices appear verbatim after the original ones, and every appended
triangle/outline index is the corresponding index of `meshB` shifted by the
pre-merge vertex count of `meshA` (which equals `|meshB.vertices|`). -/
theorem claim_C3 (meshA meshB : Mesh) (hcopy : meshA = meshB) :
    (meshA.append meshB).m_vertices.length = 2 * meshB.m_vertices.length ∧
    (meshA.append meshB).m_vertices = meshB.m_vertices ++ meshB.m_vertices ∧
    (meshA.append meshB).m_indicesTriangles = meshB.m_indicesTriangles ++
      meshB.m_indicesTriangles.map (fun t => (t.1 + meshB.m_vertices.length,
        t.2.1 + meshB.m_vertices.length, t.2.2 + meshB.m_vertices.length)) ∧
    (meshA.append meshB).m_indicesOutline = meshB.m_indicesOutline ++
      meshB.m_indicesOutline.map (fun e => (e.1 + meshB.m_vertices.length,
        e.2 + meshB.m_vertices.length)) := by
  subst hcopy
  refine ⟨?_, rfl, rfl, rfl⟩
  simp [Mesh.append, two_mul]

/-- C3 witness: the vertex-doubling conclusion on a concrete self-append. -/
theorem claim_C3_witness :
    ((Plane.add Mesh.empty idMat 1 1).append
        (Plane.add Mesh.empty idMat 1 1)).m_vertices.length =
      2 * (Plane.add Mesh.empty idMat 1 1).m_vertices.length :=
  (claim_C3 (Plane.add Mesh.empty idMat 1 1) (Plane.add Mesh.empty idMat 1 1) rfl).1

/-- C4: for `w, h ≥ 1`, any transform and any target mesh, `Sphere::add`
appends exactly `(w+1)*(h+1)` vertices and exactly `2*w*h - 2*w` triangles
(one triangle per quad on the two pole rings, two on interior quads). -/
theorem claim_C4 (geo : Mesh) (mat : Mat4) (w h : ℕ) (hw : 1 ≤ w) (hh : 1 ≤ h) :
    (Sphere.add geo mat w h).m_vertices.length =
      geo.m_vertices.length + (w + 1) * (h + 1) ∧
    (Sphere.add geo mat w h).m_indicesTriangles.length =
      geo.m_indicesTriangles.length + (2 * w * h - 2 * w) := by
  constructor
  · simp [Sphere.add, sphere_verts_length]
  · simp [Sphere.add, sphere_tris_length _ _ _ hh]

/-- C4 witness: the sphere counts at `w = 3, h = 2` on the empty mesh. -/
theorem claim_C4_witness :
    (Sphere.add Mesh.empty idMat 3 2).m_vertices.length =
      Mesh.empty.m_vertices.length + (3 + 1) * (2 + 1) ∧
    (Sphere.add Mesh.empty idMat 3 2).m_indicesTriangles.length =
      Mesh.empty.m_indicesTriangles.length + (2 * 3 * 2 - 2 * 3) :=
  claim_C4 Mesh.empty idMat 3 2 (by decide) (by decide)

/-- C5: with `survivalProbability < 0` (deterministic Menger rule), one split
step of any cube yields exactly the 20 sub-cubes not removed by the classic
Menger pattern (center and six face centers, i.e. at least two grid indices
equal to 1), and after one subdivision level the terminal working set holds
exactly 20 cubes. -/
theorem claim_C5 :
    (∀ c : Cube, c.split = mengerSplitSpec c ∧ c.split.length = 20) ∧
    (∀ prob : ℚ, prob < 0 → ∀ (rng : ℕ → ℚ) (k : ℕ),
      (mengerCubes 1 prob rng k).1.length = 20) := by
  refine ⟨fun c => ⟨Cube.split_eq_spec c, Cube.split_length c⟩, ?_⟩
  intro prob hprob rng k
  have hr : List.range 1 = [0] := by decide
  simp only [mengerCubes, hr, List.foldl_cons, List.foldl_nil]
  simp only [splitAll, if_pos hprob]
  simp [Cube.split_length]

/-- C5 witness: the level-1 count with a concrete negative probability. -/
theorem claim_C5_witness :
    (-1 : ℚ) < 0 ∧ (mengerCubes 1 (-1) (fun _ => 0) 0).1.length = 20 :=
  ⟨by norm_num, claim_C5.2 (-1) (by norm_num) (fun _ => 0) 0⟩

/-- C7: `flipWinding` applied twice is the identity on the whole mesh; one
application swaps the first and third index of every triangle and leaves the
vertex data and the outline untouched. -/
theorem claim_C7 (m : Mesh) :
    m.flipWinding.flipWinding = m ∧
    m.flipWinding.m_indicesTriangles =
      m.m_indicesTriangles.map (fun t => (t.2.2, t.2.1, t.1)) ∧
    m.flipWinding.m_vertices = m.m_vertices ∧
    m.flipWinding.m_indicesOutline = m.m_indicesOutline := by
  refine ⟨?_, rfl, rfl, rfl⟩
  cases m with
  | mk v t o =>
    simp only [Mesh.flipWinding, List.map_map]
    rw [show ((fun t : ℕ × ℕ × ℕ => (t.2.2, t.2.1, t.1)) ∘
        fun t : ℕ × ℕ × ℕ => (t.2.2, t.2.1, t.1)) = id from rfl, List.map_id]

/-- C8: `RandomMengerSponge::add` with `subdivisionLevel = 0` appends, for
every target mesh, transform and survival probability, exactly one
`Box::add` with segment counts 1,1,1 at the initial cube's extent
(`translate(-1/4,-1/4,-1/4) * scale(1/2)`): 24 vertices and 12 triangles,
and the random cursor is unchanged (no random draw is taken). -/
theorem claim_C8 (geo : Mesh) (mat : Mat4) (w h d : ℕ) (prob : ℚ)
    (rng : ℕ → ℚ) (k : ℕ) :
    RandomMengerSponge.add geo mat w h d 0 prob rng k =
      (Box.add geo (Mat4.mul
        (glmTranslate ⟨.lit (-(1/4)), .lit (-(1/4)), .lit (-(1/4))⟩)
        (glmScale (.lit (1/2)))) 1 1 1, k) ∧
    (RandomMengerSponge.add geo mat w h d 0 prob rng k).1.m_vertices.length =
      geo.m_vertices.length + 24 ∧
    (RandomMengerSponge.add geo mat w h d 0 prob rng k).1.m_indicesTriangles.length =
      geo.m_indicesTriangles.length + 12 := by
  refine ⟨rfl, ?_, ?_⟩
  · show (Box.add geo _ 1 1 1).m_vertices.length = _
    rw [box_add_verts_len]
  · show (Box.add geo _ 1 1 1).m_indicesTriangles.length = _
    rw [box_add_tris_len]

/-- C9: `Torus::add` never uses its transform parameter — its output is
identical for any two matrices — unlike `Plane::add` and `Sphere::add`,
whose outputs do depend on the matrix (witnessed by the identity versus the
zero scale). -/
theorem claim_C9 :
    (∀ (geo : Mesh) (m1 m2 : Mat4) (w h : ℕ),
      Torus.add geo m1 w h = Torus.add geo m2 w h) ∧
    Plane.add Mesh.empty idMat 1 1 ≠ Plane.add Mesh.empty (glmScale (.lit 0)) 1 1 ∧
    Sphere.add Mesh.empty idMat 1 1 ≠ Sphere.add Mesh.empty (glmScale (.lit 0)) 1 1 :=
  ⟨fun _ _ _ _ _ => rfl, by decide, by decide⟩

/-- C6: for all `w, h ≥ 1`, any transform and any target mesh, `Plane::add`
appends exactly `(w+1)*(h+1)` vertices and exactly `2*w*h` triangles (two per
grid cell). -/
theorem claim_C6 (geo : Mesh) (mat : Mat4) (w h : ℕ) (hw : 1 ≤ w) (hh : 1 ≤ h) :
    (Plane.add geo mat w h).m_vertices.length =
      geo.m_vertices.length + (w + 1) * (h + 1) ∧
    (Plane.add geo mat w h).m_indicesTriangles.length =
      geo.m_indicesTriangles.length + 2 * w * h :=
  ⟨plane_add_verts_len geo mat w h, plane_add_tris_len geo mat w h⟩

/-- C6 witness: the plane counts at `w = 2, h = 3` on the empty mesh. -/
theorem claim_C6_witness :
    (Plane.add Mesh.empty idMat 2 3).m_vertices.length =
      Mesh.empty.m_vertices.length + (2 + 1) * (3 + 1) ∧
    (Plane.add Mesh.empty idMat 2 3).m_indicesTriangles.length =
      Mesh.empty.m_indicesTriangles.length + 2 * 2 * 3 :=
  claim_C6 Mesh.empty idMat 2 3 (by decide) (by decide)

lemma Mat4.mulVec_good {m : Mat4} {v : Vec4} (hm : m.goodDenoms) (hv : v.goodDenoms) :
    (m.mulVec v).goodDenoms := by
  simp only [Mat4.goodDenoms, Vec4.goodDenoms] at hm hv
  simp only [Mat4.mulVec, Vec4.goodDenoms, FExp.goodDenoms]
  tauto

lemma Mat4.mul_good {a b : Mat4} (ha : a.goodDenoms) (hb : b.goodDenoms) :
    (a.mul b).goodDenoms := by
  obtain ⟨hb0, hb1, hb2, hb3⟩ := hb
  exact ⟨Mat4.mulVec_good ha hb0, Mat4.mulVec_good ha hb1,
    Mat4.mulVec_good ha hb2, Mat4.mulVec_good ha hb3⟩

lemma glmTranslate_good {v : Vec3} (hx : v.x.goodDenoms) (hy : v.y.goodDenoms)
    (hz : v.z.goodDenoms) : (glmTranslate v).goodDenoms := by
  simp [glmTranslate, Mat4.goodDenoms, Vec4.goodDenoms, FExp.goodDenoms, hx, hy, hz]

lemma glmScale_good {s : FExp} (hs : s.goodDenoms) : (glmScale s).goodDenoms := by
  simp [glmScale, Mat4.goodDenoms, Vec4.goodDenoms, FExp.goodDenoms, hs]

lemma Box.matrixRot_good (side : ℕ) : (Box.matrixRot side).goodDenoms := by
  rcases side with _ | _ | _ | _ | _ | n
  · decide
  · decide
  · decide
  · decide
  · decide
  · exact (by decide :
      (glmRotate (.mul FExp.pi (.lit (3/2))) ⟨.lit 1, .lit 0, .lit 0⟩).goodDenoms)

lemma plane_verts_good {mat : Mat4} (hmat : mat.goodDenoms) {w h : ℕ}
    (hw : 1 ≤ w) (hh : 1 ≤ h) : ∀ v ∈ Plane.verts mat w h, v.goodDenoms := by
  have hw' : (w : ℤ) ≠ 0 := Int.natCast_ne_zero.mpr (by omega)
  have hh' : (h : ℤ) ≠ 0 := Int.natCast_ne_zero.mpr (by omega)
  intro v hv
  simp only [Plane.verts, List.mem_flatMap, List.mem_map, List.mem_range] at hv
  obtain ⟨y, hy, x, hx, rfl⟩ := hv
  refine ⟨Mat4.mulVec_good hmat ?_, Mat4.mulVec_good hmat ?_, ?_⟩ <;>
    simp [Vertex.make, Vec4.goodDenoms, FExp.goodDenoms, FExp.nzConst, hw', hh']

lemma sphere_verts_good {mat : Mat4} (hmat : mat.goodDenoms) {w h : ℕ}
    (hw : 1 ≤ w) (hh : 1 ≤ h) : ∀ v ∈ Sphere.verts mat w h, v.goodDenoms := by
  have hw' : (w : ℤ) ≠ 0 := Int.natCast_ne_zero.mpr (by omega)
  have hh' : (h : ℤ) ≠ 0 := Int.natCast_ne_zero.mpr (by omega)
  intro v hv
  simp only [Sphere.verts, List.mem_flatMap, List.mem_map, List.mem_range] at hv
  obtain ⟨z, hz, xy, hxy, rfl⟩ := hv
  refine ⟨Mat4.mulVec_good hmat ?_, Mat4.mulVec_good hmat ?_, ?_⟩ <;>
    simp [Vertex.make, Vec4.goodDenoms, FExp.goodDenoms, FExp.nzConst, hw', hh']

lemma torus_verts_good {w h : ℕ} (hw : 1 ≤ w) (hh : 1 ≤ h) :
    ∀ v ∈ Torus.verts w h, v.goodDenoms := by
  have hw' : (w : ℤ) ≠ 0 := Int.natCast_ne_zero.mpr (by omega)
  have hh' : (h : ℤ) ≠ 0 := Int.natCast_ne_zero.mpr (by omega)
  intro v hv
  simp only [Torus.verts, List.mem_flatMap, List.mem_map, List.mem_range] at hv
  obtain ⟨lat, hlat, long, hlong, rfl⟩ := hv
  refine ⟨?_, ?_, ?_⟩ <;>
    simp [Vertex.make, Vec4.goodDenoms, FExp.goodDenoms, FExp.nzConst, hw', hh']

lemma plane_add_good {geo : Mesh} {mat : Mat4} {w h : ℕ} (hgeo : geo.goodDenoms)
    (hmat : mat.goodDenoms) (hw : 1 ≤ w) (hh : 1 ≤ h) :
    (Plane.add geo mat w h).goodDenoms := by
  intro v hv
  simp only [Plane.add] at hv
  rcases List.mem_append.mp hv with hm | hm
  · exact hgeo v hm
  · exact plane_verts_good hmat hw hh v hm

lemma sphere_add_good {geo : Mesh} {mat : Mat4} {w h : ℕ} (hgeo : geo.goodDenoms)
    (hmat : mat.goodDenoms) (hw : 1 ≤ w) (hh : 1 ≤ h) :
    (Sphere.add geo mat w h).goodDenoms := by
  intro v hv
  simp only [Sphere.add] at hv
  rcases List.mem_append.mp hv with hm | hm
  · exact hgeo v hm
  · exact sphere_verts_good hmat hw hh v hm

lemma torus_add_good {geo : Mesh} (mat : Mat4) {w h : ℕ} (hgeo : geo.goodDenoms)
    (hw : 1 ≤ w) (hh : 1 ≤ h) : (Torus.add geo mat w h).goodDenoms := by
  intro v hv
  simp only [Torus.add] at hv
  rcases List.mem_append.mp hv with hm | hm
  · exact hgeo v hm
  · exact torus_verts_good hw hh v hm

lemma foldl_good {α : Type} (f : Mesh → α → Mesh) :
    ∀ (l : List α), (∀ m a, a ∈ l → m.goodDenoms → (f m a).goodDenoms) →
      ∀ m : Mesh, m.goodDenoms → (l.foldl f m).goodDenoms
  | [], _, m, hm => by simpa using hm
  | a :: rest, hstep, m, hm => by
    rw [List.foldl_cons]
    exact foldl_good f rest (fun m' b hb => hstep m' b (by simp [hb])) (f m a)
      (hstep m a (by simp) hm)

lemma box_add_good {geo : Mesh} {mat : Mat4} {w h d : ℕ} (hgeo : geo.goodDenoms)
    (hmat : mat.goodDenoms) (hw : 1 ≤ w) (hh : 1 ≤ h) (hd : 1 ≤ d) :
    (Box.add geo mat w h d).goodDenoms := by
  unfold Box.add
  refine foldl_good _ _ ?_ geo hgeo
  intro m side hside hm
  have hmove : (glmTranslate ⟨.lit 0, .lit 0, .lit 1⟩).goodDenoms := by decide
  have hmat' : ((mat.mul (Box.matrixRot side)).mul
      (glmTranslate ⟨.lit 0, .lit 0, .lit 1⟩)).goodDenoms :=
    Mat4.mul_good (Mat4.mul_good hmat (Box.matrixRot_good side)) hmove
  have h6 : side < 6 := List.mem_range.mp hside
  interval_cases side
  · exact plane_add_good hm hmat' hw hh
  · exact plane_add_good hm hmat' hw hh
  · exact plane_add_good hm hmat' hd hh
  · exact plane_add_good hm hmat' hd hh
  · exact plane_add_good hm hmat' hw hd
  · exact plane_add_good hm hmat' hw hd

lemma Cube.split_good {c : Cube} (hc : c.goodDenoms) :
    ∀ c' ∈ c.split, c'.goodDenoms := by
  obtain ⟨h1, h2, h3, h4⟩ := hc
  have h3q : ((3 : ℚ) ≠ 0) := by norm_num
  intro c' hc'
  simp only [Cube.split, List.mem_flatMap, List.mem_range] at hc'
  obtain ⟨x, hx, y, hy, hc'⟩ := hc'
  split_ifs at hc' with hxy
  · simp at hc'
  · simp only [List.mem_flatMap, List.mem_range] at hc'
    obtain ⟨z, hz, hc'⟩ := hc'
    split_ifs at hc' with hxz
    · simp at hc'
    · simp only [List.mem_singleton] at hc'
      subst hc'
      exact ⟨⟨h1, trivial, h4, trivial, h3q⟩, ⟨h2, trivial, h4, trivial, h3q⟩,
        ⟨h3, trivial, h4, trivial, h3q⟩, h4, trivial, h3q⟩

lemma Cube.splitProb_good {c : Cube} (hc : c.goodDenoms) (prob : ℚ) (rng : ℕ → ℚ)
    (k : ℕ) : ∀ c' ∈ (c.splitProb prob rng k).1, c'.goodDenoms := by
  obtain ⟨h1, h2, h3, h4⟩ := hc
  have h3q : ((3 : ℚ) ≠ 0) := by norm_num
  intro c' hc'
  simp only [Cube.splitProb, List.mem_flatMap, List.mem_range] at hc'
  obtain ⟨x, hx, y, hy, z, hz, hc'⟩ := hc'
  split_ifs at hc'
  · simp at hc'
  · simp only [List.mem_singleton] at hc'
    subst hc'
    exact ⟨⟨h1, trivial, h4, trivial, h3q⟩, ⟨h2, trivial, h4, trivial, h3q⟩,
      ⟨h3, trivial, h4, trivial, h3q⟩, h4, trivial, h3q⟩

lemma splitAll_good : ∀ (cs : List Cube) (prob : ℚ) (rng : ℕ → ℚ) (k : ℕ),
    (∀ c ∈ cs, c.goodDenoms) → ∀ c' ∈ (splitAll cs prob rng k).1, c'.goodDenoms
  | [], _, _, _, _ => by simp [splitAll]
  | c :: rest, prob, rng, k, hcs => by
    simp only [splitAll]
    intro c' hc'
    rcases List.mem_append.mp hc' with hm | hm
    · split_ifs at hm with hp
      · exact Cube.split_good (hcs c (by simp)) c' hm
      · exact Cube.splitProb_good (hcs c (by simp)) prob rng k c' hm
    · exact splitAll_good rest prob rng _ (fun c0 h0 => hcs c0 (by simp [h0])) c' hm

lemma foldl_splitAll_good (prob : ℚ) (rng : ℕ → ℚ) :
    ∀ (l : List ℕ) (acc : List Cube × ℕ), (∀ c ∈ acc.1, c.goodDenoms) →
      ∀ c ∈ (l.foldl (fun acc _ => splitAll acc.1 prob rng acc.2) acc).1, c.goodDenoms
  | [], _, hacc => by simpa using hacc
  | _ :: rest, acc, hacc => by
    rw [List.foldl_cons]
    exact foldl_splitAll_good prob rng rest _
      (splitAll_good acc.1 prob rng acc.2 hacc)

lemma mengerCubes_good (level : ℕ) (prob : ℚ) (rng : ℕ → ℚ) (k : ℕ) :
    ∀ c ∈ (mengerCubes level prob rng k).1, c.goodDenoms := by
  unfold mengerCubes
  refine foldl_splitAll_good prob rng (List.range level) _ ?_
  intro c hc
  simp only [List.mem_singleton] at hc
  subst hc
  decide

lemma menger_add_good {geo : Mesh} (mat : Mat4) (w h d level : ℕ)
    (prob : ℚ) (rng : ℕ → ℚ) (k : ℕ) (hgeo : geo.goodDenoms) :
    (RandomMengerSponge.add geo mat w h d level prob rng k).1.goodDenoms := by
  unfold RandomMengerSponge.add
  refine foldl_good _ _ ?_ geo hgeo
  intro m c hc hm
  have hcg : c.goodDenoms := mengerCubes_good level prob rng k c hc
  obtain ⟨hc1, hc2, hc3, hc4⟩ := hcg
  exact box_add_good hm
    (Mat4.mul_good (glmTranslate_good hc1 hc2 hc3) (glmScale_good hc4))
    (by omega) (by omega) (by omega)

lemma Mesh.append_good {m o : Mesh} (hm : m.goodDenoms) (ho : o.goodDenoms) :
    (m.append o).goodDenoms := by
  intro v hv
  simp only [Mesh.append] at hv
  rcases List.mem_append.mp hv with hmem | hmem
  · exact hm v hmem
  · exact ho v hmem

lemma Mesh.flipWinding_good {m : Mesh} (hm : m.goodDenoms) :
    m.flipWinding.goodDenoms := hm

/-- C10: totality and divisor safety.  In this shallow embedding every
operation is a total function; moreover, under segment counts at least 1
(and any subdivision level), every division node in every float expression
of the produced mesh divides by a nonzero numeric constant — the divisors
derived from the segment counts (`xdim`, `ydim`, `xydim`, `zdim`, `wf`,
`hf`, and the constant 3 of the sponge) are nonzero — provided the incoming
mesh and transform already have that property. -/
theorem claim_C10 (geo : Mesh) (mat : Mat4) (hgeo : geo.goodDenoms)
    (hmat : mat.goodDenoms) :
    (∀ w h, 1 ≤ w → 1 ≤ h → (Plane.add geo mat w h).goodDenoms) ∧
    (∀ w h d, 1 ≤ w → 1 ≤ h → 1 ≤ d → (Box.add geo mat w h d).goodDenoms) ∧
    (∀ w h, 1 ≤ w → 1 ≤ h → (Sphere.add geo mat w h).goodDenoms) ∧
    (∀ w h, 1 ≤ w → 1 ≤ h → (Torus.add geo mat w h).goodDenoms) ∧
    (∀ w h d level prob rng k,
      (RandomMengerSponge.add geo mat w h d level prob rng k).1.goodDenoms) ∧
    (∀ other : Mesh, other.goodDenoms → (geo.append other).goodDenoms) ∧
    geo.flipWinding.goodDenoms :=
  ⟨fun _ _ hw hh => plane_add_good hgeo hmat hw hh,
   fun _ _ _ hw hh hd => box_add_good hgeo hmat hw hh hd,
   fun _ _ hw hh => sphere_add_good hgeo hmat hw hh,
   fun _ _ hw hh => torus_add_good mat hgeo hw hh,
   fun w h d level prob rng k => menger_add_good mat w h d level prob rng k hgeo,
   fun _ ho => Mesh.append_good hgeo ho,
   Mesh.flipWinding_good hgeo⟩

/-- C10 witness: divisor safety of a concrete generated mesh. -/
theorem claim_C10_witness :
    (Plane.add Mesh.empty idMat 1 1).goodDenoms :=
  (claim_C10 Mesh.empty idMat (by decide) (by decide)).1 1 1 (by decide) (by decide)
